import Mathlib

/-!
Verification development for the `indis` network-experiment harness.

Shallow embedding of the timing-critical measurement subsystem:
  * `run_flow_monitor` (src/tcp_flow_monitor.py) — flow lifecycle tracking
    over a sequence of timed snapshots;
  * `ExperimentClient.run_experiment` / `spawn_client_batch` /
    `wait_for_clients` (src/experiment_client.py) — batch scheduling, port
    assignment, spawn recording and completion polling;
  * `ExperimentOrchestrator.start_iperf_servers`
    (src/experiment_orchestrator.py) — server port allocation;
  * `ExperimentDatastore.save_experiment` (src/datastore.py) — CSV upsert.

Machine time is modelled as `Int`; snapshots are lists of flow identities
over an arbitrary type with decidable equality.
-/

set_option maxHeartbeats 1000000

namespace Indis

/-! ### Flow monitor (src/tcp_flow_monitor.py, run_flow_monitor)

State: `observed` mirrors `observed_flows` (flow → first-seen time, kept as
an association list in insertion order), `completed` mirrors the emitted
completed-flow records `(flow, start_time, end_time, duration)`. -/

structure MonState (F : Type) where
  observed : List (F × Int)
  completed : List (F × Int × Int × Int)

variable {F : Type} [DecidableEq F]

/-- One body of the `while` loop of `run_flow_monitor`, for a tick observed
at time `tk.1` with snapshot `tk.2`.  `g` is `check_interval`, `startTs` is
`start_ts`.  New flows are registered with first-seen time `now`; flows
absent from the snapshot are removed, and emitted as completed when
`start_time >= start_ts` and `end_time - now < check_interval`
(with `end_time = now`). -/
def run_flow_monitor_step (g startTs : Int) (st : MonState F) (tk : Int × List F) :
    MonState F :=
  let now := tk.1
  let cur := tk.2
  let obs1 := st.observed ++
    (cur.filter (fun f => decide (f ∉ st.observed.map Prod.fst))).map (fun f => (f, now))
  let endTime := now
  let ended := obs1.filter (fun p => decide (p.1 ∉ cur))
  let emitted := (ended.filter
      (fun p => decide (startTs ≤ p.2) && decide (endTime - now < g))).map
      (fun p => (p.1, p.2, endTime, endTime - p.2))
  { observed := obs1.filter (fun p => decide (p.1 ∈ cur)),
    completed := st.completed ++ emitted }

/-- Run the monitor loop from a given state over a list of timed snapshots. -/
def run_flow_monitor_from (g startTs : Int) (st : MonState F)
    (ticks : List (Int × List F)) : MonState F :=
  ticks.foldl (run_flow_monitor_step g startTs) st

/-- `run_flow_monitor`: the whole monitoring run, starting from the empty
open-flow table and no completed events. -/
def run_flow_monitor (g startTs : Int) (ticks : List (Int × List F)) : MonState F :=
  run_flow_monitor_from g startTs ⟨[], []⟩ ticks

/-- The monitor loop when the snapshot source may fail.  The loop body of
`run_flow_monitor` wraps no handler around `get_current_flows`, so a raised
exception propagates out of the loop and aborts the run. -/
def run_flow_monitor_exc (g startTs : Int) :
    List (Int × Except Unit (List F)) → MonState F → Except Unit (MonState F)
  | [], st => Except.ok st
  | (_t, Except.error e) :: _, _st => Except.error e
  | (t, Except.ok s) :: rest, st =>
      run_flow_monitor_exc g startTs rest (run_flow_monitor_step g startTs st (t, s))

/-- The snapshot schedule of the spec scenario: S0 = ∅, S1 = \x7bA\x7d,
S2 = \x7bA, B\x7d, S3 = \x7bB\x7d at times 0, 1, 2, 3, with A = 0, B = 1. -/
def scenarioTicks : List (Int × List Nat) :=
  [(0, []), (1, [0]), (2, [0, 1]), (3, [1])]

/-! ### Periodic scheduling (src/experiment_client.py run_experiment,
src/tcp_flow_monitor.py loop tail)

Wake times of the two loops, as a function of the run-start origin and the
per-tick action durations `a k`.  The client loop sleeps
`max(0, (origin + (k+1)) - now)` (interval hard-coded to 1 second); the
flow-monitor loop sleeps `max(0, check_interval - loop_duration)`. -/

/-- Wake time of tick `k` in `ExperimentClient.run_experiment`:
`batch_target_time`/`next_batch_time` are computed from the fixed origin
`experiment_start_time`, and the sleep is `max(0, next_batch_time - now)`. -/
def run_experiment_wake (origin : Int) (a : Nat → Int) : Nat → Int
  | 0 => origin
  | k + 1 =>
      let now := run_experiment_wake origin a k + a k
      now + max 0 (origin + ((k : Int) + 1) - now)

/-- Sleep computed at the end of one `run_flow_monitor` loop iteration:
`sleep_time = max(0, check_interval - loop_duration)`. -/
def flow_monitor_sleep (g loopDuration : Int) : Int :=
  max 0 (g - loopDuration)

/-- Wake time of tick `k` in the `run_flow_monitor` loop: each iteration
sleeps `flow_monitor_sleep` measured from its own start, with no reference
to the run-start origin. -/
def flow_monitor_wake (origin g : Int) (a : Nat → Int) : Nat → Int
  | 0 => origin
  | k + 1 =>
      flow_monitor_wake origin g a k + a k + flow_monitor_sleep g (a k)

/-- A concrete action-duration history: the tick-0 action overruns a
1-second interval by 1 second, later actions are instantaneous. -/
def overrunActions : Nat → Int := fun k => if k = 0 then 2 else 0

/-! ### Client batches and port assignment
(src/experiment_client.py start_iperf_client / spawn_client_batch /
run_experiment; src/experiment_orchestrator.py start_iperf_servers)

A spawn outcome is modelled by `outcome : Nat → Option Nat`, mapping a port
to the process handle (pid) of a successfully started client, or `none`
when `subprocess.Popen` raises and `start_iperf_client` returns
`(None, port, None)`. -/

/-- `start_iperf_client`: returns the handle (or `none` on failure)
together with the port. -/
def start_iperf_client (outcome : Nat → Option Nat) (port : Nat) :
    Option Nat × Nat :=
  (outcome port, port)

/-- `spawn_client_batch`: draws `c` sequential ports starting at the
current counter, attempts one client per port, and returns the list of
successfully started `(handle, port)` pairs (failures return `None` and
are filtered out by the `if process:` check) together with the updated
port counter. -/
def spawn_client_batch (outcome : Nat → Option Nat) (c cur : Nat) :
    List (Nat × Nat) × Nat :=
  let attempts := (List.range c).map (fun i => start_iperf_client outcome (cur + i))
  let successes := attempts.filterMap (fun pr => pr.1.map (fun h => (h, pr.2)))
  (successes, cur + c)

/-- The port sequence consumed by one batch: `c` sequential ports starting
at the counter value (`port = self.current_port; self.current_port += 1`,
`c` times). -/
def spawn_batch_ports (c cur : Nat) : List Nat :=
  (List.range c).map (fun i => cur + i)

/-- The full port sequence assigned over a run of
`ExperimentClient.run_experiment`: `t` batches of `c` ports each, the
counter starting at `initial_port` and threaded through the batches. -/
def run_experiment_ports : Nat → Nat → Nat → List Nat
  | 0, _c, _cur => []
  | t + 1, c, cur => spawn_batch_ports c cur ++ run_experiment_ports t c (cur + c)

/-- `total_servers = duration * clients_per_second`
(ExperimentOrchestrator.__init__). -/
def total_servers (t c : Nat) : Nat := t * c

/-- The ports on which `ExperimentOrchestrator.start_iperf_servers` starts
its servers: `initial_port + i` for `i in range(total_servers)`. -/
def start_iperf_servers_ports (t c p : Nat) : List Nat :=
  (List.range (total_servers t c)).map (fun i => p + i)

/-- A concrete spawn outcome in which the attempts on ports 5101 and 5103
fail and every other attempt succeeds. -/
def twoFailuresOutcome : Nat → Option Nat :=
  fun port => if port = 5101 ∨ port = 5103 then none else some port

/-! ### Completion waiter (src/experiment_client.py wait_for_clients)

A process handle carries the round at which `poll()` first reports it
exited (`none` = never exits).  The loop is given fuel (an upper bound on
the number of iterations) to make it structurally recursive; the theorems
require enough fuel to cover every exit. -/

structure Proc where
  pid : Nat
  exitAt : Option Nat
deriving DecidableEq

/-- `process.poll() is None` at poll round `round`. -/
def pollRunning (round : Nat) (p : Proc) : Bool :=
  match p.exitAt with
  | none => true
  | some e => decide (round < e)

structure Report where
  completedCount : Nat
  totalCount : Nat
  activeCount : Nat
  elapsed : Nat
deriving DecidableEq

/-- The `while self.active_processes and not self.stop_event.is_set()`
loop of `wait_for_clients`: polls every active handle, keeps the live
ones, counts the exited ones, prints a progress report and sleeps 1 second
whenever handles remain.  Returns (completed count, remaining handles,
progress reports). -/
def wait_loop (cancel : Nat → Bool) (total : Nat) :
    Nat → Nat → List Proc → Nat → Nat × List Proc × List Report
  | 0, _round, active, completed => (completed, active, [])
  | fuel + 1, round, active, completed =>
    if active = [] ∨ cancel round = true then (completed, active, [])
    else
      let remaining := active.filter (pollRunning round)
      let newCompleted := completed + (active.length - remaining.length)
      if remaining = [] then (newCompleted, remaining, [])
      else
        let rep : Report := ⟨newCompleted, total, remaining.length, round⟩
        let rest := wait_loop cancel total fuel (round + 1) remaining newCompleted
        (rest.1, rest.2.1, rep :: rest.2.2)

/-- `wait_for_clients`: waits on the full list of spawned handles, with
`completed = 0`, `total_clients = len(active_processes)` and the elapsed
clock starting at 0. -/
def wait_for_clients (cancel : Nat → Bool) (procs : List Proc) (fuel : Nat) :
    Nat × List Proc × List Report :=
  wait_loop cancel procs.length fuel 0 procs 0

/-- Every handle's exit round is defined and bounded by `M`. -/
def allExitBy (procs : List Proc) (M : Nat) : Bool :=
  procs.all (fun p =>
    match p.exitAt with
    | some e => decide (e ≤ M)
    | none => false)

/-- A run during which `stop_event` is never set. -/
def neverCancel : Nat → Bool := fun _ => false

/-! ### Datastore (src/datastore.py, ExperimentDatastore.save_experiment)

A CSV row is an association list from column name to cell value; the store
is the list of rows.  `kwargs` is modelled as `String → String`, with `""`
standing for an absent keyword argument (`kwargs.get(header, '')`). -/

/-- The CSV column schema of `ExperimentDatastore`. -/
def headers : List String :=
  ["id", "timestamp",
   "interface", "speed", "duration", "Parallel.", "Concur.", "Freq", "size",
   "offered load", "Observed utilization", "Total transfer time", "tx",
   "propagation", "rx_avg", "rx_median", "rx_max", "transfer_avg",
   "transfer_max"]

/-- A CSV row: column name → cell value, in column order. -/
def Row : Type := List (String × String)

/-- Read a cell of a row (empty string when the column is missing). -/
def getField (r : Row) (h : String) : String :=
  ((r.find? (fun p => p.1 == h)).map Prod.snd).getD ""

/-- The value `row_data[h]` prepared by `save_experiment`: `kwargs.get(h, '')`
for every header, then `row_data['id'] = experiment_id` and
`row_data['timestamp'] = timestamp or datetime.now().isoformat()` (a falsy
`timestamp` argument — `None` or `''` — is replaced by the current time
`now`). -/
def rowVal (eid : String) (ts : Option String) (now : String)
    (kwargs : String → String) (h : String) : String :=
  if h = "id" then eid
  else if h = "timestamp" then
    match ts with
    | some t => if t = "" then now else t
    | none => now
  else kwargs h

/-- The freshly appended row for a new experiment id. -/
def mkRow (eid : String) (ts : Option String) (now : String)
    (kwargs : String → String) : Row :=
  headers.map (fun h => (h, rowVal eid ts now kwargs h))

/-- Update of an existing row: for every header column whose prepared value
is non-empty, overwrite the cell (`if value != '': df.at[idx, key] = value`);
every other cell is left unchanged. -/
def updateRow (r : Row) (eid : String) (ts : Option String) (now : String)
    (kwargs : String → String) : Row :=
  r.map (fun p =>
    if p.1 ∈ headers ∧ rowVal eid ts now kwargs p.1 ≠ "" then
      (p.1, rowVal eid ts now kwargs p.1)
    else p)

/-- `experiment_id in df['id'].values` for one row. -/
def hasId (r : Row) (eid : String) : Bool :=
  getField r "id" == eid

/-- Update the first row whose id matches (`df[df['id'] == experiment_id].index[0]`). -/
def update_first (eid : String) (ts : Option String) (now : String)
    (kwargs : String → String) : List Row → List Row
  | [] => []
  | r :: rs =>
      if hasId r eid then updateRow r eid ts now kwargs :: rs
      else r :: update_first eid ts now kwargs rs

/-- `ExperimentDatastore.save_experiment`: upsert by experiment id. -/
def save_experiment (store : List Row) (eid : String) (ts : Option String)
    (now : String) (kwargs : String → String) : List Row :=
  if store.any (fun r => hasId r eid) then update_first eid ts now kwargs store
  else store ++ [mkRow eid ts now kwargs]

/-- A concrete stored record for experiment id "e1". -/
def sampleRow : Row := mkRow "e1" (some "T0") "T0" (fun _ => "")

/-- A concrete keyword-argument mapping supplying only the interface. -/
def sampleKwargs : String → String := fun h => if h = "interface" then "eth0" else ""

/-! ## Supporting lemmas: flow monitor -/

section FlowMonitorLemmas

variable {F : Type} [DecidableEq F]

lemma mem_step_observed_of_mem (g startTs : Int) (st : MonState F)
    (tk : Int × List F) (q : F × Int) (hq : q ∈ st.observed) (hc : q.1 ∈ tk.2) :
    q ∈ (run_flow_monitor_step g startTs st tk).observed := by
  simp only [run_flow_monitor_step, List.mem_filter, List.mem_append,
    decide_eq_true_eq]
  exact ⟨Or.inl hq, hc⟩

lemma mem_step_observed_new (g startTs : Int) (st : MonState F)
    (tk : Int × List F) (f : F) (hf : f ∈ tk.2)
    (hnew : f ∉ st.observed.map Prod.fst) :
    (f, tk.1) ∈ (run_flow_monitor_step g startTs st tk).observed := by
  simp only [run_flow_monitor_step, List.mem_filter, List.mem_append,
    List.mem_map, decide_eq_true_eq]
  refine ⟨Or.inr ⟨f, ⟨hf, ?_⟩, rfl⟩, hf⟩
  simpa using hnew

lemma mem_step_completed_of_mem (g startTs : Int) (st : MonState F)
    (tk : Int × List F) (x : F × Int × Int × Int) (hx : x ∈ st.completed) :
    x ∈ (run_flow_monitor_step g startTs st tk).completed := by
  simp only [run_flow_monitor_step, List.mem_append]
  exact Or.inl hx

lemma step_emits (g startTs : Int) (st : MonState F) (tk : Int × List F)
    (q : F × Int) (hq : q ∈ st.observed) (hout : q.1 ∉ tk.2)
    (hstart : startTs ≤ q.2) (hg : 0 < g) :
    (q.1, q.2, tk.1, tk.1 - q.2) ∈
      (run_flow_monitor_step g startTs st tk).completed := by
  simp only [run_flow_monitor_step, List.mem_append, List.mem_map,
    List.mem_filter, decide_eq_true_eq, Bool.and_eq_true]
  refine Or.inr ⟨q, ⟨⟨Or.inl hq, hout⟩, hstart, ?_⟩, rfl⟩
  omega

lemma step_observed_ge (g startTs : Int) (st : MonState F) (tk : Int × List F)
    (hst : ∀ q ∈ st.observed, startTs ≤ q.2) (ht : startTs ≤ tk.1) :
    ∀ q ∈ (run_flow_monitor_step g startTs st tk).observed, startTs ≤ q.2 := by
  intro q hq
  simp only [run_flow_monitor_step, List.mem_filter, List.mem_append,
    List.mem_map, decide_eq_true_eq] at hq
  rcases hq.1 with h1 | ⟨f, _, rfl⟩
  · exact hst q h1
  · exact ht

lemma run_from_cons (g startTs : Int) (st : MonState F) (tk : Int × List F)
    (ticks : List (Int × List F)) :
    run_flow_monitor_from g startTs st (tk :: ticks) =
      run_flow_monitor_from g startTs (run_flow_monitor_step g startTs st tk) ticks :=
  rfl

lemma run_from_append (g startTs : Int) (st : MonState F)
    (l₁ l₂ : List (Int × List F)) :
    run_flow_monitor_from g startTs st (l₁ ++ l₂) =
      run_flow_monitor_from g startTs (run_flow_monitor_from g startTs st l₁) l₂ := by
  simp [run_flow_monitor_from, List.foldl_append]

lemma run_from_completed_mono (g startTs : Int) (st : MonState F)
    (ticks : List (Int × List F)) (x : F × Int × Int × Int)
    (hx : x ∈ st.completed) :
    x ∈ (run_flow_monitor_from g startTs st ticks).completed := by
  induction ticks generalizing st with
  | nil => exact hx
  | cons tk ticks ih =>
      exact ih _ (mem_step_completed_of_mem g startTs st tk x hx)

lemma run_from_observed_ge (g startTs : Int) (st : MonState F)
    (ticks : List (Int × List F)) (hst : ∀ q ∈ st.observed, startTs ≤ q.2)
    (ht : ∀ tk ∈ ticks, startTs ≤ tk.1) :
    ∀ q ∈ (run_flow_monitor_from g startTs st ticks).observed, startTs ≤ q.2 := by
  induction ticks generalizing st with
  | nil => exact hst
  | cons tk ticks ih =>
      exact ih _ (step_observed_ge g startTs st tk hst
          (ht tk (List.mem_cons_self tk ticks)))
        (fun tk' htk' => ht tk' (List.mem_cons_of_mem tk htk'))

lemma run_from_persist (g startTs : Int) (st : MonState F)
    (ticks : List (Int × List F)) (q : F × Int) (hq : q ∈ st.observed)
    (hall : ∀ tk ∈ ticks, q.1 ∈ tk.2) :
    q ∈ (run_flow_monitor_from g startTs st ticks).observed := by
  induction ticks generalizing st with
  | nil => exact hq
  | cons tk ticks ih =>
      exact ih _ (mem_step_observed_of_mem g startTs st tk q hq
          (hall tk (List.mem_cons_self tk ticks)))
        (fun tk' htk' => hall tk' (List.mem_cons_of_mem tk htk'))

end FlowMonitorLemmas

/-! ## Supporting lemmas: scheduling -/

lemma flow_monitor_wake_step_ge (origin g : Int) (a : Nat → Int) (k : Nat) :
    flow_monitor_wake origin g a k + g ≤ flow_monitor_wake origin g a (k + 1) := by
  have hmax : g - a k ≤ max 0 (g - a k) := le_max_right _ _
  simp only [flow_monitor_wake, flow_monitor_sleep]
  linarith

lemma flow_monitor_wake_lb (origin g : Int) (a : Nat → Int) (n : Nat) :
    origin + n * g ≤ flow_monitor_wake origin g a n := by
  induction n with
  | zero => simp [flow_monitor_wake]
  | succ n ih =>
      have hstep := flow_monitor_wake_step_ge origin g a n
      have hc : ((n : Int) + 1) * g = (n : Int) * g + g := by ring
      push_cast
      rw [hc]
      linarith


/-! ## Supporting lemmas: port assignment -/

lemma run_experiment_ports_eq (t c p : Nat) :
    run_experiment_ports t c p = (List.range (t * c)).map (fun i => p + i) := by
  induction t generalizing p with
  | zero => simp [run_experiment_ports]
  | succ t ih =>
      have hsplit : (t + 1) * c = c + t * c := by ring
      rw [run_experiment_ports, ih, hsplit, List.range_add, List.map_append]
      simp only [spawn_batch_ports, List.map_map]
      congr 1
      exact List.map_congr_left (fun i _ => by simp only [Function.comp_apply]; omega)

/-! ## Claim theorems -/

/-- C1: on the snapshot schedule S0 = ∅, S1 = \x7bA\x7d, S2 = \x7bA, B\x7d,
S3 = \x7bB\x7d at ticks 0, 1, 2, 3 (A = 0, B = 1), `run_flow_monitor`
emits exactly one completed-flow record, for A, with start = 1, end = 3,
duration = 2; B produces no record and is still in the open-flow table
when the run ends. -/
theorem flow_monitor_scenario :
    (run_flow_monitor 1 0 scenarioTicks).completed = [(0, 1, 3, 2)] ∧
    (run_flow_monitor 1 0 scenarioTicks).observed = [(1, 2)] := by
  decide

/-- C2 counterexample: in the flow tracker's loop, after the tick-0 action
overruns a 1-second interval (`overrunActions`), the sleep computed before
tick 2 is `max(0, interval - loop_duration) = 1`, whereas the fixed-origin
rule `max(0, (origin + 2·T) - now)` yields 0 — so the sampling loop's sleep
is NOT computed from the run-start origin. -/
theorem periodic_scheduling_counterexample :
    flow_monitor_sleep 1 (overrunActions 1) = 1 ∧
    max 0 (0 + 2 * 1 - (flow_monitor_wake 0 1 overrunActions 1 + overrunActions 1))
      = (0 : Int) ∧
    (1 : Int) ≠ 0 := by
  decide

/-- C2 (amended): the client generator's batch loop does schedule from the
fixed run-start origin (`origin + (k+1)·1s`, sleep `max(0, deadline − now)`),
so when every batch action fits in the interval, tick `n` fires exactly at
`origin + n` with no accumulated drift; the flow tracker's sampling loop
instead sleeps `max(0, interval − loop_duration)` measured from the current
iteration, so once the tick-`j` action overruns the interval by `d`, every
later wake time stays at least `d` past the fixed-origin schedule
`origin + n·T` — the drift accumulates and is never recovered. -/
theorem periodic_scheduling_amended :
    (∀ (origin : Int) (a : Nat → Int) (n : Nat),
        (∀ k, 0 ≤ a k) → (∀ k, a k ≤ 1) →
        run_experiment_wake origin a n = origin + n) ∧
    (∀ (origin g d : Int) (b : Nat → Int) (j n : Nat),
        0 ≤ d → b j = g + d → j < n →
        origin + n * g + d ≤ flow_monitor_wake origin g b n) := by
  constructor
  · intro origin a n h0 h1
    induction n with
    | zero => simp [run_experiment_wake]
    | succ n ih =>
        have hle : a n ≤ 1 := h1 n
        have h0n : 0 ≤ a n := h0 n
        simp only [run_experiment_wake]
        rw [ih]
        have harg : origin + ((n : Int) + 1) - (origin + (n : Int) + a n)
            = 1 - a n := by ring
        rw [harg, max_eq_right (by linarith)]
        push_cast
        ring
  · intro origin g d b j n hd hbj hjn
    induction n with
    | zero => exact absurd hjn (Nat.not_lt_zero j)
    | succ n ih =>
        have hc : ((n : Int) + 1) * g = (n : Int) * g + g := by ring
        rcases Nat.lt_succ_iff_lt_or_eq.mp hjn with h | h
        · have hn := ih h
          have hstep := flow_monitor_wake_step_ge origin g b n
          push_cast
          rw [hc]
          linarith
        · subst h
          have hlb := flow_monitor_wake_lb origin g b j
          simp only [flow_monitor_wake, flow_monitor_sleep, hbj]
          have hmax : max 0 (g - (g + d)) = 0 := max_eq_left (by linarith)
          rw [hmax]
          push_cast
          rw [hc]
          linarith

/-- C2 witness: the amended statement at concrete inputs — with unit action
cost the client loop fires tick 3 exactly at origin + 3, and after the
overrun history the monitor's tick-2 wake is at least origin + 2·T + 1. -/
theorem periodic_scheduling_amended_witness :
    run_experiment_wake 0 (fun _ => 1) 3 = 0 + ((3 : Nat) : Int) ∧
    (0 : Int) + ((2 : Nat) : Int) * 1 + 1 ≤ flow_monitor_wake 0 1 overrunActions 2 :=
  ⟨periodic_scheduling_amended.1 0 (fun _ => 1) 3
      (fun _ => by norm_num) (fun _ => le_refl 1),
   periodic_scheduling_amended.2 0 1 1 overrunActions 0 2
      (by norm_num) (by norm_num [overrunActions]) (by norm_num)⟩

/-- C3 counterexample: a batch of C = 4 requested clients in which the
spawn attempts on ports 5101 and 5103 fail yields a batch result with only
2 recorded entries — not 4 — and no entry (marked failed or otherwise) for
the failed ports. -/
theorem spawn_client_batch_counterexample :
    (spawn_client_batch twoFailuresOutcome 4 5101).1.length = 2 ∧
    (spawn_client_batch twoFailuresOutcome 4 5101).1.length ≠ 4 ∧
    (∀ x ∈ (spawn_client_batch twoFailuresOutcome 4 5101).1,
      x.2 ≠ 5101 ∧ x.2 ≠ 5103) := by
  decide

/-- C3 (amended): for a requested batch size C, exactly C spawn attempts
are MADE per tick — the port counter advances by exactly C — and a spawn
failure never aborts the batch: every successful attempt in the port window
appears in the batch result with its live handle.  But the batch result
records only the successful attempts; failed attempts are dropped, not
recorded as failed. -/
theorem spawn_client_batch_amended (outcome : Nat → Option Nat) (c cur : Nat) :
    (spawn_client_batch outcome c cur).2 = cur + c ∧
    ∀ h p, ((h, p) ∈ (spawn_client_batch outcome c cur).1 ↔
      cur ≤ p ∧ p < cur + c ∧ outcome p = some h) := by
  refine ⟨rfl, ?_⟩
  intro h p
  simp only [spawn_client_batch, start_iperf_client]
  constructor
  · intro hmem
    rw [List.mem_filterMap] at hmem
    obtain ⟨pr, hpr, hfa⟩ := hmem
    rw [List.mem_map] at hpr
    obtain ⟨i, hi, rfl⟩ := hpr
    rw [List.mem_range] at hi
    cases ho : outcome (cur + i) with
    | none => rw [ho] at hfa; simp at hfa
    | some h₀ =>
        rw [ho] at hfa
        simp only [Option.map_some', Option.some.injEq, Prod.mk.injEq] at hfa
        obtain ⟨rfl, rfl⟩ := hfa
        exact ⟨Nat.le_add_right _ _, by omega, ho⟩
  · rintro ⟨hle, hlt, ho⟩
    rw [List.mem_filterMap]
    refine ⟨(outcome (cur + (p - cur)), cur + (p - cur)), ?_, ?_⟩
    · rw [List.mem_map]
      exact ⟨p - cur, by rw [List.mem_range]; omega, rfl⟩
    · have hpc : cur + (p - cur) = p := by omega
      rw [hpc, ho]
      rfl

/-- C4 counterexample: when the snapshot source fails at tick 0 and would
deliver \x7bA\x7d at tick 1 and ∅ at tick 2, the monitoring run aborts with
the propagated error and emits nothing — whereas skipping the failed tick
and continuing (the claimed behavior) would have emitted the completed
record (A, 1, 2, 1). -/
theorem run_flow_monitor_exc_counterexample :
    run_flow_monitor_exc 1 0
        [((0 : Int), Except.error ()), (1, Except.ok [0]), (2, Except.ok ([] : List Nat))]
        ⟨[], []⟩ = Except.error () ∧
    (run_flow_monitor 1 0 [((1 : Int), [0]), (2, ([] : List Nat))]).completed
      = [(0, 1, 2, 1)] :=
  ⟨rfl, by decide⟩

/-- C4 (amended): a snapshot-source failure is fatal to the monitoring run:
the loop body wraps no handler around `get_current_flows`, so the first
failing tick makes the whole run abort with the propagated error; no tick
is skipped and the loop does not continue. -/
theorem run_flow_monitor_exc_amended {F : Type} [DecidableEq F] (g startTs : Int)
    (pre : List (Int × Except Unit (List F))) (t : Int)
    (rest : List (Int × Except Unit (List F))) (st : MonState F)
    (hpre : ∀ q ∈ pre, ∃ s, q.2 = Except.ok s) :
    run_flow_monitor_exc g startTs (pre ++ (t, Except.error ()) :: rest) st
      = Except.error () := by
  revert hpre
  induction pre generalizing st with
  | nil => intro _; rfl
  | cons q pre ih =>
      intro hpre
      obtain ⟨tq, xq⟩ := q
      obtain ⟨s, hs⟩ := hpre (tq, xq) (List.mem_cons_self (tq, xq) pre)
      have hs' : xq = Except.ok s := hs
      subst hs'
      exact ih (run_flow_monitor_step g startTs st (tq, s))
        (fun q' hq' => hpre q' (List.mem_cons_of_mem _ hq'))

/-- C4 witness: the amended statement at a concrete input — one successful
tick followed by a failing one aborts the run with the error. -/
theorem run_flow_monitor_exc_amended_witness :
    run_flow_monitor_exc 1 0
        ([((1 : Int), Except.ok [0])] ++ ((2 : Int), Except.error ()) :: [])
        (⟨[], []⟩ : MonState Nat) = Except.error () :=
  run_flow_monitor_exc_amended 1 0 [(1, Except.ok [0])] 2 [] ⟨[], []⟩
    (by
      intro q hq
      rw [List.mem_singleton] at hq
      subst hq
      exact ⟨[0], rfl⟩)

/-- C5: within one run of the client generator the assigned ports are
pairwise strictly increasing in assignment order (so no port is ever
assigned twice), every assigned port is at least the initial port, and the
very first assignment is the initial port itself. -/
theorem run_ports_strictly_increasing (t c p : Nat) :
    List.Pairwise (· < ·) (run_experiment_ports t c p) ∧
    (∀ q ∈ run_experiment_ports t c p, p ≤ q) ∧
    (0 < t → 0 < c → (run_experiment_ports t c p).head? = some p) := by
  refine ⟨?_, ?_, ?_⟩
  · rw [run_experiment_ports_eq]
    exact List.pairwise_map.mpr ((List.pairwise_lt_range _).imp (fun hab => by omega))
  · intro q hq
    rw [run_experiment_ports_eq, List.mem_map] at hq
    obtain ⟨i, _, rfl⟩ := hq
    omega
  · intro ht hc
    have hne : t * c ≠ 0 := Nat.mul_ne_zero (by omega) (by omega)
    obtain ⟨m, hm⟩ := Nat.exists_eq_succ_of_ne_zero hne
    rw [run_experiment_ports_eq, hm, List.range_succ_eq_map]
    simp

/-- C5 witness: the port-assignment invariants at t = 2 batches of c = 2
clients starting at port 5101. -/
theorem run_ports_strictly_increasing_witness :
    List.Pairwise (· < ·) (run_experiment_ports 2 2 5101) ∧
    (∀ q ∈ run_experiment_ports 2 2 5101, 5101 ≤ q) ∧
    (run_experiment_ports 2 2 5101).head? = some 5101 :=
  ⟨(run_ports_strictly_increasing 2 2 5101).1,
   (run_ports_strictly_increasing 2 2 5101).2.1,
   (run_ports_strictly_increasing 2 2 5101).2.2 (by decide) (by decide)⟩

/-! ## Supporting lemmas: completion waiter -/

lemma wait_loop_sublist (cancel : Nat → Bool) (total : Nat) :
    ∀ (fuel round : Nat) (active : List Proc) (completed : Nat),
      List.Sublist (wait_loop cancel total fuel round active completed).2.1 active := by
  intro fuel
  induction fuel with
  | zero => intro round active completed; exact List.Sublist.refl active
  | succ fuel ih =>
      intro round active completed
      simp only [wait_loop]
      split
      · exact List.Sublist.refl active
      · split
        · exact List.filter_sublist active
        · dsimp only
          exact (ih _ _ _).trans (List.filter_sublist active)

lemma wait_loop_count (cancel : Nat → Bool) (total : Nat) :
    ∀ (fuel round : Nat) (active : List Proc) (completed : Nat),
      (wait_loop cancel total fuel round active completed).1
        + (wait_loop cancel total fuel round active completed).2.1.length
        = completed + active.length := by
  intro fuel
  induction fuel with
  | zero => intro round active completed; rfl
  | succ fuel ih =>
      intro round active completed
      simp only [wait_loop]
      split
      · rfl
      · split
        · rename_i hrem
          dsimp only
          rw [hrem]
          simp
        · dsimp only
          have hlen := List.length_filter_le (pollRunning round) active
          have hrec := ih (round + 1) (active.filter (pollRunning round))
            (completed + (active.length - (active.filter (pollRunning round)).length))
          omega

lemma wait_loop_reports (cancel : Nat → Bool) (total : Nat) :
    ∀ (fuel round : Nat) (active : List Proc) (completed : Nat) (i : Nat) (rep : Report),
      (wait_loop cancel total fuel round active completed).2.2.get? i = some rep →
      rep.elapsed = round + i ∧ rep.totalCount = total := by
  intro fuel
  induction fuel with
  | zero => intro round active completed i rep h; simp [wait_loop] at h
  | succ fuel ih =>
      intro round active completed i rep h
      simp only [wait_loop] at h
      split at h
      · simp at h
      · split at h
        · simp at h
        · dsimp only at h
          cases i with
          | zero =>
              rw [List.get?_cons_zero, Option.some.injEq] at h
              subst h
              exact ⟨rfl, rfl⟩
          | succ i =>
              rw [List.get?_cons_succ] at h
              have hrec := ih (round + 1) _ _ i rep h
              exact ⟨by omega, hrec.2⟩

lemma wait_loop_exit (cancel : Nat → Bool) (total M : Nat) :
    ∀ (fuel round : Nat) (active : List Proc) (completed : Nat),
      (∀ p ∈ active, ∃ e, p.exitAt = some e ∧ e ≤ M) →
      (∀ p ∈ active, ∀ e, p.exitAt = some e → round ≤ e) →
      M + 1 ≤ fuel + round →
      ((wait_loop cancel total fuel round active completed).2.1 = []
        ∨ ∃ r, cancel r = true) := by
  intro fuel
  induction fuel with
  | zero =>
      intro round active completed hM hlive hfr
      cases active with
      | nil => exact Or.inl rfl
      | cons p rest =>
          obtain ⟨e, he, heM⟩ := hM p (List.mem_cons_self p rest)
          have hre := hlive p (List.mem_cons_self p rest) e he
          exfalso
          omega
  | succ fuel ih =>
      intro round active completed hM hlive hfr
      by_cases hc : cancel round = true
      · exact Or.inr ⟨round, hc⟩
      · by_cases ha : active = []
        · simp only [wait_loop]
          rw [if_pos (Or.inl ha)]
          exact Or.inl ha
        · simp only [wait_loop]
          rw [if_neg (not_or.mpr ⟨ha, hc⟩)]
          by_cases hrem : active.filter (pollRunning round) = []
          · rw [if_pos hrem]
            exact Or.inl hrem
          · rw [if_neg hrem]
            dsimp only
            apply ih (round + 1)
            · intro p hp
              exact hM p (List.mem_of_mem_filter hp)
            · intro p hp e he
              have hrun : pollRunning round p = true := List.of_mem_filter hp
              simp only [pollRunning, he, decide_eq_true_eq] at hrun
              omega
            · omega

/-- C6: `wait_for_clients` — given enough fuel to cover every handle's
exit round — (i) returns a sub-list of the handles it was given, each
unchanged (it never terminates a handle itself; on cancellation the
still-live handles are returned as they are); (ii) its completed count
plus the remaining handles accounts for every handle; (iii) it stops
polling only once no active handle remains or a cancellation was
observed; (iv) the i-th progress report is emitted at elapsed second i
(fixed 1-second polling interval) and carries the constant total count. -/
theorem wait_for_clients_contract (cancel : Nat → Bool) (procs : List Proc)
    (M fuel : Nat) (hM : allExitBy procs M = true) (hfuel : M + 1 ≤ fuel) :
    List.Sublist (wait_for_clients cancel procs fuel).2.1 procs ∧
    (wait_for_clients cancel procs fuel).1
      + (wait_for_clients cancel procs fuel).2.1.length = procs.length ∧
    ((wait_for_clients cancel procs fuel).2.1 = [] ∨ ∃ r, cancel r = true) ∧
    (∀ i rep, (wait_for_clients cancel procs fuel).2.2.get? i = some rep →
      rep.elapsed = i ∧ rep.totalCount = procs.length) := by
  have hM' : ∀ p ∈ procs, ∃ e, p.exitAt = some e ∧ e ≤ M := by
    intro p hp
    have hall := List.all_eq_true.mp hM p hp
    cases hx : p.exitAt with
    | none => rw [hx] at hall; simp at hall
    | some e =>
        rw [hx] at hall
        exact ⟨e, rfl, of_decide_eq_true hall⟩
  refine ⟨?_, ?_, ?_, ?_⟩
  · exact wait_loop_sublist cancel procs.length fuel 0 procs 0
  · have h := wait_loop_count cancel procs.length fuel 0 procs 0
    simpa using h
  · exact wait_loop_exit cancel procs.length M fuel 0 procs 0 hM'
      (fun p _ e _ => Nat.zero_le e) (by omega)
  · intro i rep h
    have hrec := wait_loop_reports cancel procs.length fuel 0 procs 0 i rep h
    exact ⟨by simpa using hrec.1, hrec.2⟩

/-- C6 witness: the waiter contract at a concrete run — two handles that
exit at rounds 0 and 1, no cancellation, fuel 3. -/
theorem wait_for_clients_contract_witness :
    List.Sublist (wait_for_clients neverCancel [⟨1, some 0⟩, ⟨2, some 1⟩] 3).2.1
        ([⟨1, some 0⟩, ⟨2, some 1⟩] : List Proc) ∧
    (wait_for_clients neverCancel [⟨1, some 0⟩, ⟨2, some 1⟩] 3).1
      + (wait_for_clients neverCancel [⟨1, some 0⟩, ⟨2, some 1⟩] 3).2.1.length
      = ([⟨1, some 0⟩, ⟨2, some 1⟩] : List Proc).length ∧
    ((wait_for_clients neverCancel [⟨1, some 0⟩, ⟨2, some 1⟩] 3).2.1 = []
      ∨ ∃ r, neverCancel r = true) ∧
    (∀ i rep,
      (wait_for_clients neverCancel [⟨1, some 0⟩, ⟨2, some 1⟩] 3).2.2.get? i = some rep →
      rep.elapsed = i ∧ rep.totalCount = ([⟨1, some 0⟩, ⟨2, some 1⟩] : List Proc).length) :=
  wait_for_clients_contract neverCancel [⟨1, some 0⟩, ⟨2, some 1⟩] 1 3
    (by decide) (by decide)

/-- C9: the port list used by `start_iperf_servers` (t·c sequential ports
from the initial port) is exactly the port list the client generator
assigns over t batches of c clients from the same initial port — so the
port sets coincide and every client has a matching server port and vice
versa. -/
theorem server_ports_eq_client_ports (t c p : Nat) :
    start_iperf_servers_ports t c p = run_experiment_ports t c p ∧
    ∀ q, (q ∈ start_iperf_servers_ports t c p ↔ q ∈ run_experiment_ports t c p) := by
  have h : start_iperf_servers_ports t c p = run_experiment_ports t c p := by
    rw [run_experiment_ports_eq]
    rfl
  exact ⟨h, fun q => by rw [h]⟩

/-- C8: along any run of the flow monitor whose tick times are at or after
the tracker's start time, (i) in every reachable state every open-flow
entry has first_seen ≥ start_ts — so the emission guard
`start_time >= start_ts` holds for every entry and (ii) never suppresses
an event: every tracked flow that disappears from a snapshot is emitted as
completed at that tick; (iii) in particular a flow present in the very
first snapshot that stays present until it later disappears is emitted as
completed with first_seen equal to the first tick's timestamp. -/
theorem flow_monitor_first_seen_bound {F : Type} [DecidableEq F]
    (g startTs : Int) (ticks : List (Int × List F))
    (htime : ∀ q ∈ ticks, startTs ≤ q.1) (hg : 0 < g) :
    (∀ pre suf, ticks = pre ++ suf →
      ∀ q ∈ (run_flow_monitor g startTs pre).observed, startTs ≤ q.2) ∧
    (∀ pre t s suf, ticks = pre ++ (t, s) :: suf →
      ∀ q ∈ (run_flow_monitor g startTs pre).observed, q.1 ∉ s →
        (q.1, q.2, t, t - q.2) ∈ (run_flow_monitor g startTs ticks).completed) ∧
    (∀ t0 s0 rest, ticks = (t0, s0) :: rest →
      ∀ f ∈ s0, ∀ pre t s suf, rest = pre ++ (t, s) :: suf →
        (∀ q ∈ pre, f ∈ q.2) → f ∉ s →
        (f, t0, t, t - t0) ∈ (run_flow_monitor g startTs ticks).completed) := by
  have hinit : ∀ q ∈ (⟨[], []⟩ : MonState F).observed, startTs ≤ q.2 := by
    intro q hq
    exact absurd hq (List.not_mem_nil q)
  refine ⟨?_, ?_, ?_⟩
  · intro pre suf hsplit
    exact run_from_observed_ge g startTs ⟨[], []⟩ pre hinit
      (fun tk htk => htime tk (by rw [hsplit]; exact List.mem_append_left suf htk))
  · intro pre t s suf hsplit q hq hout
    have hq2 : startTs ≤ q.2 :=
      run_from_observed_ge g startTs ⟨[], []⟩ pre hinit
        (fun tk htk => htime tk (by rw [hsplit]; exact List.mem_append_left _ htk))
        q hq
    have hstep := step_emits g startTs (run_flow_monitor g startTs pre) (t, s)
      q hq hout hq2 hg
    have hfinal : run_flow_monitor g startTs ticks
        = run_flow_monitor_from g startTs
            (run_flow_monitor_step g startTs (run_flow_monitor g startTs pre) (t, s))
            suf := by
      rw [hsplit]
      unfold run_flow_monitor
      rw [run_from_append, run_from_cons]
    rw [hfinal]
    exact run_from_completed_mono g startTs _ suf _ hstep
  · intro t0 s0 rest hsplit f hf pre t s suf hrest hall hout
    have ht0 : startTs ≤ t0 :=
      htime (t0, s0) (by rw [hsplit]; exact List.mem_cons_self _ _)
    have hnew : (f, t0) ∈ (run_flow_monitor_step g startTs ⟨[], []⟩ (t0, s0)).observed := by
      apply mem_step_observed_new g startTs ⟨[], []⟩ (t0, s0) f hf
      simp
    have hpersist : (f, t0) ∈
        (run_flow_monitor_from g startTs
          (run_flow_monitor_step g startTs ⟨[], []⟩ (t0, s0)) pre).observed :=
      run_from_persist g startTs _ pre (f, t0) hnew (fun tk htk => hall tk htk)
    have hstep := step_emits g startTs
      (run_flow_monitor_from g startTs
        (run_flow_monitor_step g startTs ⟨[], []⟩ (t0, s0)) pre)
      (t, s) (f, t0) hpersist hout ht0 hg
    have hfinal : run_flow_monitor g startTs ticks
        = run_flow_monitor_from g startTs
            (run_flow_monitor_step g startTs
              (run_flow_monitor_from g startTs
                (run_flow_monitor_step g startTs ⟨[], []⟩ (t0, s0)) pre)
              (t, s))
            suf := by
      rw [hsplit, hrest]
      unfold run_flow_monitor
      rw [run_from_cons, run_from_append, run_from_cons]
    rw [hfinal]
    exact run_from_completed_mono g startTs _ suf _ hstep

/-- C8 witness: a flow present in the very first snapshot (taken exactly at
the tracker's start time), still present at tick 1 and gone at tick 2 is
emitted with first_seen equal to the first tick's timestamp. -/
theorem flow_monitor_first_seen_bound_witness :
    ((0 : Nat), (0 : Int), (2 : Int), (2 : Int)) ∈
      (run_flow_monitor 1 0
        [((0 : Int), [0]), (1, [0]), (2, ([] : List Nat))]).completed :=
  (flow_monitor_first_seen_bound 1 0
      [((0 : Int), [0]), (1, [0]), (2, ([] : List Nat))]
      (by decide) (by decide)).2.2
    0 [0] [(1, [0]), (2, [])] rfl 0 (by decide)
    [(1, [0])] 2 [] [] rfl (by decide) (by decide)

/-! ## Supporting lemmas: datastore -/

lemma mkRow_keys (eid : String) (ts : Option String) (now : String)
    (kwargs : String → String) :
    (mkRow eid ts now kwargs).map Prod.fst = headers := by
  simp [mkRow, List.map_map, Function.comp_def]

lemma find?_map_key_preserving (f : String × String → String × String)
    (hf : ∀ p, (f p).1 = p.1) (l : List (String × String)) (h : String) :
    (l.map f).find? (fun p => p.1 == h) = (l.find? (fun p => p.1 == h)).map f := by
  induction l with
  | nil => rfl
  | cons p l ih =>
      simp only [List.map_cons, List.find?_cons]
      rw [hf p]
      by_cases hp : (p.1 == h) = true
      · simp [hp]
      · simp only [hp, Bool.false_eq_true, if_false, ih]

lemma find?_eq_of_mem_keys (l : List (String × String)) (h : String)
    (hh : h ∈ l.map Prod.fst) :
    ∃ v, l.find? (fun p => p.1 == h) = some (h, v) := by
  induction l with
  | nil => simp at hh
  | cons p l ih =>
      obtain ⟨k, v⟩ := p
      by_cases hk : (k == h) = true
      · have hke : k = h := by simpa using hk
        subst hke
        exact ⟨v, List.find?_cons_of_pos _ hk⟩
      · have hne : h ≠ k := fun hkh => hk (by simp [hkh])
        have hmem : h ∈ l.map Prod.fst := by
          simp only [List.map_cons, List.mem_cons] at hh
          rcases hh with h1 | h1
          · exact absurd h1 hne
          · exact h1
        obtain ⟨v', hv'⟩ := ih hmem
        have hkf : (k == h) = false := by
          revert hk
          cases (k == h) <;> simp
        refine ⟨v', ?_⟩
        rw [List.find?_cons]
        simp [hkf, hv']

lemma getField_updateRow (r : Row) (eid : String) (ts : Option String)
    (now : String) (kwargs : String → String)
    (hkeys : r.map Prod.fst = headers) (h : String) (hh : h ∈ headers) :
    getField (updateRow r eid ts now kwargs) h =
      if rowVal eid ts now kwargs h = "" then getField r h
      else rowVal eid ts now kwargs h := by
  have hf : ∀ p : String × String,
      ((if p.1 ∈ headers ∧ rowVal eid ts now kwargs p.1 ≠ "" then
          (p.1, rowVal eid ts now kwargs p.1) else p)).1 = p.1 := by
    intro p
    split <;> rfl
  have hmem : h ∈ r.map Prod.fst := by rw [hkeys]; exact hh
  obtain ⟨v, hv⟩ := find?_eq_of_mem_keys r h hmem
  unfold getField updateRow
  rw [find?_map_key_preserving _ hf r h, hv]
  by_cases hval : rowVal eid ts now kwargs h = ""
  · rw [if_pos hval]
    have hfix : (if (h, v).1 ∈ headers ∧ rowVal eid ts now kwargs (h, v).1 ≠ "" then
        ((h, v).1, rowVal eid ts now kwargs (h, v).1) else (h, v)) = (h, v) := by
      rw [if_neg]
      simp [hval]
    simp only [Option.map_some', hfix, Option.getD_some]
  · rw [if_neg hval]
    have hfix : (if (h, v).1 ∈ headers ∧ rowVal eid ts now kwargs (h, v).1 ≠ "" then
        ((h, v).1, rowVal eid ts now kwargs (h, v).1) else (h, v))
        = (h, rowVal eid ts now kwargs h) := by
      rw [if_pos ⟨hh, hval⟩]
    simp only [Option.map_some', hfix, Option.getD_some]

lemma update_first_spec (eid : String) (ts : Option String) (now : String)
    (kwargs : String → String) (store : List Row)
    (h : store.any (fun r => hasId r eid) = true) :
    ∃ pre o post, store = pre ++ o :: post ∧ (∀ r ∈ pre, hasId r eid = false) ∧
      hasId o eid = true ∧
      update_first eid ts now kwargs store
        = pre ++ updateRow o eid ts now kwargs :: post := by
  induction store with
  | nil => simp at h
  | cons r rs ih =>
      by_cases hr : hasId r eid = true
      · exact ⟨[], r, rs, rfl, by simp, hr, by simp [update_first, hr]⟩
      · have hrf : hasId r eid = false := by
          revert hr
          cases hasId r eid <;> simp
        have hrs : rs.any (fun r => hasId r eid) = true := by
          simp only [List.any_cons, hrf, Bool.false_or] at h
          exact h
        obtain ⟨pre, o, post, heq, hpre, ho, hupd⟩ := ih hrs
        refine ⟨r :: pre, o, post, by rw [heq]; rfl, ?_, ho, ?_⟩
        · intro r' hr'
          rcases List.mem_cons.mp hr' with h1 | h1
          · rw [h1]; exact hrf
          · exact hpre r' h1
        · rw [update_first, if_neg (by rw [hrf]; exact Bool.false_ne_true), hupd]
          rfl

/-- C7: `save_experiment` with an id already in the store updates exactly
the first record carrying that id: every header field whose prepared value
is non-empty is overwritten with it, every field whose prepared value is
empty keeps the old cell, and all other records are untouched; with an id
not in the store, the call appends the freshly built row and leaves every
existing record unchanged. -/
theorem save_experiment_upsert (store : List Row) (eid : String)
    (ts : Option String) (now : String) (kwargs : String → String)
    (hwf : ∀ r ∈ store, r.map Prod.fst = headers) :
    (store.any (fun r => hasId r eid) = false →
      save_experiment store eid ts now kwargs = store ++ [mkRow eid ts now kwargs]) ∧
    (store.any (fun r => hasId r eid) = true →
      ∃ pre o post, store = pre ++ o :: post ∧
        (∀ r ∈ pre, hasId r eid = false) ∧ hasId o eid = true ∧
        save_experiment store eid ts now kwargs
          = pre ++ updateRow o eid ts now kwargs :: post ∧
        (∀ h ∈ headers, getField (updateRow o eid ts now kwargs) h =
          if rowVal eid ts now kwargs h = "" then getField o h
          else rowVal eid ts now kwargs h)) := by
  constructor
  · intro habs
    rw [save_experiment, if_neg (by rw [habs]; exact Bool.false_ne_true)]
  · intro hpres
    obtain ⟨pre, o, post, heq, hpre, ho, hupd⟩ :=
      update_first_spec eid ts now kwargs store hpres
    have hko : o.map Prod.fst = headers :=
      hwf o (by rw [heq]; exact List.mem_append_right _ (List.mem_cons_self o post))
    refine ⟨pre, o, post, heq, hpre, ho, ?_, ?_⟩
    · rw [save_experiment, if_pos hpres, hupd]
    · intro h hh
      exact getField_updateRow o eid ts now kwargs hko h hh

/-- C7 witness: the upsert contract applied to a one-record store whose
record carries id "e1", updated with only the interface supplied. -/
theorem save_experiment_upsert_witness :
    ∃ pre o post, ([sampleRow] : List Row) = pre ++ o :: post ∧
      (∀ r ∈ pre, hasId r "e1" = false) ∧ hasId o "e1" = true ∧
      save_experiment [sampleRow] "e1" none "NOW" sampleKwargs
        = pre ++ updateRow o "e1" none "NOW" sampleKwargs :: post ∧
      (∀ h ∈ headers, getField (updateRow o "e1" none "NOW" sampleKwargs) h =
        if rowVal "e1" none "NOW" sampleKwargs h = "" then getField o h
        else rowVal "e1" none "NOW" sampleKwargs h) :=
  (save_experiment_upsert [sampleRow] "e1" none "NOW" sampleKwargs
      (by
        intro r hr
        rw [List.mem_singleton] at hr
        rw [hr]
        exact mkRow_keys "e1" (some "T0") "T0" (fun _ => ""))).2
    (by decide)

/-- C10: a `save_experiment` call that updates an existing record always
overwrites the stored timestamp: with no timestamp argument supplied the
prepared timestamp is auto-filled with the current time, which is
non-empty, so the non-empty-fields-only update rule refreshes the stored
timestamp to the current time on every save for the same identifier. -/
theorem save_experiment_refreshes_timestamp (store : List Row) (eid : String)
    (now : String) (kwargs : String → String)
    (hwf : ∀ r ∈ store, r.map Prod.fst = headers)
    (hpres : store.any (fun r => hasId r eid) = true)
    (hnow : now ≠ "") :
    ∃ pre o post, store = pre ++ o :: post ∧
      save_experiment store eid none now kwargs
        = pre ++ updateRow o eid none now kwargs :: post ∧
      getField (updateRow o eid none now kwargs) "timestamp" = now := by
  obtain ⟨pre, o, post, heq, hpre, ho, hupd⟩ :=
    update_first_spec eid none now kwargs store hpres
  have hko : o.map Prod.fst = headers :=
    hwf o (by rw [heq]; exact List.mem_append_right _ (List.mem_cons_self o post))
  have hts : rowVal eid none now kwargs "timestamp" = now := by
    simp [rowVal]
  refine ⟨pre, o, post, heq, ?_, ?_⟩
  · rw [save_experiment, if_pos hpres, hupd]
  · rw [getField_updateRow o eid none now kwargs hko "timestamp" (by decide), hts,
      if_neg hnow]

/-- C10 witness: updating the one-record store for id "e1" with no
timestamp argument and current time "NOW" stores timestamp "NOW". -/
theorem save_experiment_refreshes_timestamp_witness :
    ∃ pre o post, ([sampleRow] : List Row) = pre ++ o :: post ∧
      save_experiment [sampleRow] "e1" none "NOW" sampleKwargs
        = pre ++ updateRow o "e1" none "NOW" sampleKwargs :: post ∧
      getField (updateRow o "e1" none "NOW" sampleKwargs) "timestamp" = "NOW" :=
  save_experiment_refreshes_timestamp [sampleRow] "e1" "NOW" sampleKwargs
    (by
      intro r hr
      rw [List.mem_singleton] at hr
      rw [hr]
      exact mkRow_keys "e1" (some "T0") "T0" (fun _ => ""))
    (by decide) (by decide)

end Indis
